import Mathlib

/- Verification of the conviction-voting background script
   (src/app/src/script.js) against its specification.

   The JavaScript source is shallowly embedded in Lean.  JavaScript
   reference semantics matter for several properties (object identity of
   the state returned by the reducer, in-place mutation of arrays shared
   between states), so mutable objects are modelled with an explicit
   heap: the proposals array and the convictionStakes array of a state
   are references (natural numbers) into a heap, and every state object
   carries its own reference so that object identity (JavaScript `===`)
   is distinguishable from structural equality.  Allocating an object or
   an array bumps the heap's `fresh` counter.  Numbers produced by
   `parseInt` are modelled as `Option Int`, `none` standing for `NaN`;
   JavaScript `null`/`undefined` object fields are modelled as `Option`.
   External collaborators (the chain-call transport, the token-settings
   resolver, the vault-balance resolver, `addressesEqual` and `toUtf8`
   from web3-utils) are not part of the source under verification; the
   values their awaited calls resolve with are passed as parameters, and
   the two pure utility functions are parameters of the context. -/

/-- JavaScript decimal digit value of a character. -/
def decDigitVal (c : Char) : Option Nat :=
  if '0' ≤ c ∧ c ≤ '9' then some (c.toNat - '0'.toNat) else none

/-- JavaScript hexadecimal digit value of a character. -/
def hexDigitVal (c : Char) : Option Nat :=
  if '0' ≤ c ∧ c ≤ '9' then some (c.toNat - '0'.toNat)
  else if 'a' ≤ c ∧ c ≤ 'f' then some (c.toNat - 'a'.toNat + 10)
  else if 'A' ≤ c ∧ c ≤ 'F' then some (c.toNat - 'A'.toNat + 10)
  else none

/-- Accumulate the longest prefix of digits (in the given base),
stopping at the first character that is not a digit. -/
def parseDigitsAux (dv : Char → Option Nat) (base : Nat) : Nat → List Char → Nat
  | acc, [] => acc
  | acc, c :: cs =>
    match dv c with
    | some d => parseDigitsAux dv base (acc * base + d) cs
    | none => acc

/-- JavaScript `parseInt(s)` with its default radix handling, as used
throughout script.js (`parseInt(id)`, `parseInt(amount)`, ...): leading
whitespace is skipped, an optional sign is read, a `0x`/`0X` prefix
switches to base 16, digits are consumed up to the first non-digit, and
the result is `NaN` (here `none`) when no digit is found. -/
def parseIntJs (s : String) : Option Int :=
  let cs := s.toList.dropWhile (fun c => c.isWhitespace)
  let signAndRest : Int × List Char :=
    match cs with
    | '-' :: rest => (-1, rest)
    | '+' :: rest => (1, rest)
    | _ => (1, cs)
  let sign := signAndRest.1
  let baseAndRest : Nat × List Char :=
    match signAndRest.2 with
    | '0' :: 'x' :: rest => (16, rest)
    | '0' :: 'X' :: rest => (16, rest)
    | rest => (10, rest)
  let base := baseAndRest.1
  let dv := if base = 16 then hexDigitVal else decDigitVal
  match baseAndRest.2 with
  | [] => none
  | c :: cs2 =>
    match dv c with
    | some d => some (sign * Int.ofNat (parseDigitsAux dv base d cs2))
    | none => none

/-- Follows the claim's words, for comparison with `parseIntJs`: strict
base-10 integer parsing (what `parseInt(s, 10)` would do), identical to
`parseIntJs` except that no `0x`/`0X` prefix is recognised. -/
def parseIntBase10 (s : String) : Option Int :=
  let cs := s.toList.dropWhile (fun c => c.isWhitespace)
  let signAndRest : Int × List Char :=
    match cs with
    | '-' :: rest => (-1, rest)
    | '+' :: rest => (1, rest)
    | _ => (1, cs)
  match signAndRest.2 with
  | [] => none
  | c :: cs2 =>
    match decDigitVal c with
    | some d => some (signAndRest.1 * Int.ofNat (parseDigitsAux decDigitVal 10 d cs2))
    | none => none

/-- JavaScript strict equality (`===`) on numbers that may be `NaN`
(`none`): `NaN === x` is false for every `x`, including `NaN` itself. -/
def jsNumEq : Option Int → Option Int → Bool
  | some a, some b => a == b
  | _, _ => false

/-- Proposal record as built by the `ProposalAdded` branch of the
reducer (script.js:130-137).  The source object literal has no
`executed` property, so `executed` defaults to `none` (JavaScript
`undefined`); the `ProposalExecuted` branch later produces copies with
`executed := some true`.  `link` is `some` of a string, never `none`
(`null`), because `link && toUtf8(link)` always evaluates to a string
when `returnValues.link` is a string. -/
structure Proposal where
  id : Option Int
  name : String
  link : Option String
  requestedAmount : Option Int
  creator : String
  beneficiary : String
  executed : Option Bool := none
deriving DecidableEq

/-- ConvictionStake record as built by the `StakeChanged` branch of the
reducer (script.js:149-156). -/
structure ConvictionStake where
  entity : String
  proposal : Option Int
  tokensStaked : Option Int
  totalTokensStaked : Option Int
  time : Nat
  conviction : Option Int
deriving DecidableEq

/-- Modelled from the spec: descriptive token metadata as returned by
the external token-settings resolver (src/app/src/token-settings.js is
not part of the source under src/).  The core touches `tokenSymbol`
(read by `app.identify`) and `tokenSupply` (written by the `Transfer`
branch); the remaining metadata fields are abstracted as `extra`, which
the object spreads preserve. -/
structure TokenSettings where
  tokenSymbol : String
  tokenSupply : Option String := none
  extra : List (String × String) := []
deriving DecidableEq

/-- Global parameters derived by `loadGlobalParams` (script.js:235-246).
Each field is `parseInt` of a decimal-string contract value divided by a
fixed divisor; a failed parse (`NaN`) propagates through the division,
modelled by `Option.map`. -/
structure GlobalParams where
  alpha : Option Rat
  maxRatio : Option Rat
  weight : Option Rat
deriving DecidableEq

/-- Shallow embedding of `loadGlobalParams` (script.js:235-246); the
three awaited `app.call` results are passed in as the raw strings they
resolve with. -/
def loadGlobalParams (decay maxRatioRaw weightRaw : String) : GlobalParams :=
  { alpha := (parseIntJs decay).map (fun n => (n : Rat) / 10)
    maxRatio := (parseIntJs maxRatioRaw).map (fun n => (n : Rat) / 10)
    weight := (parseIntJs weightRaw).map (fun n => (n : Rat) / 100) }

/-- Balance record produced by the external vault-balance resolver; its
field set is opaque to the core, abstracted as key-value pairs. -/
abbrev BalanceRecord := List (String × String)

/-- Request-token settings: the object
`{ ...(await updateBalances([], address, app, vault))[0], address }`
built by `getRequestTokenSettings` (script.js:229-233).  `address` is an
`Option` because the JavaScript `|| {}` fallback object would lack the
property (`undefined`). -/
structure RequestTokenSettings where
  balanceFields : List (String × String)
  address : Option String
deriving DecidableEq

/-- Truthiness of an object value in JavaScript: every object is truthy. -/
def objTruthy (_ : RequestTokenSettings) : Bool := true

/-- JavaScript `a || fallback` on object values: yields `a` when `a` is
truthy, otherwise the fallback. -/
def jsOrObj (a fallback : RequestTokenSettings) : RequestTokenSettings :=
  if objTruthy a then a else fallback

/-- The empty object literal `{}` of the fallback branch. -/
def emptyRequestTokenSettings : RequestTokenSettings :=
  { balanceFields := [], address := none }

/-- Shallow embedding of `getRequestTokenSettings` (script.js:229-233):
`{ ...(await updateBalances([], address, app, vault))[0], address } || {}`.
The list the resolver's promise resolves with is passed as `balances`.
Spreading `balances[0]` when the list is empty spreads `undefined`,
which contributes no fields. -/
def getRequestTokenSettings (address : String) (balances : List BalanceRecord) :
    RequestTokenSettings :=
  jsOrObj { balanceFields := (balances.head?).getD [], address := some address }
    emptyRequestTokenSettings

/-- Application state (the aggregate folded by the reducer).  `ref` is
the identity of the state object itself; `proposals` and
`convictionStakes` are references to (mutable) arrays in the heap. -/
structure AppState where
  ref : Nat
  proposals : Nat
  convictionStakes : Nat
  globalParams : GlobalParams
  stakeToken : TokenSettings
  requestToken : Option RequestTokenSettings
  isSyncing : Bool
deriving DecidableEq

/-- Heap of mutable JavaScript objects relevant to the claims: arrays of
proposals and arrays of conviction stakes, addressed by references.
`fresh` is the next unused reference; allocating any object (including
state objects, whose contents live in `AppState` itself) bumps it. -/
structure Heap where
  propArr : Nat → List Proposal
  stakeArr : Nat → List ConvictionStake
  fresh : Nat

/-- Point update of a heap component. -/
def setArr {α : Type} (f : Nat → α) (r : Nat) (v : α) : Nat → α :=
  fun i => if i = r then v else f i

/-- Event record fields read by the reducer.  Events deliver stringified
values; fields a given event kind does not carry default to the empty
string (reading an absent field never matters for a branch that does
not use it). -/
structure ReturnValues where
  entity : String := ""
  id : String := ""
  title : String := ""
  amount : String := ""
  beneficiary : String := ""
  link : String := ""
  token : String := ""
  tokensStaked : String := ""
  totalTokensStaked : String := ""
  conviction : String := ""
deriving DecidableEq

/-- An incoming event as destructured by the reducer
(script.js:91): `{ event, returnValues, blockNumber, address }`. -/
structure Event where
  event : String
  returnValues : ReturnValues
  blockNumber : Nat
  address : String
deriving DecidableEq

/-- Modelled from the spec: the host API's sync-status marker event
names (`events.SYNC_STATUS_SYNCING` from the aragon api package, which
is not part of src/). -/
def SYNC_STATUS_SYNCING : String := "SYNC_STATUS_SYNCING"

/-- Modelled from the spec: the host API's second sync-status marker
event name (`events.SYNC_STATUS_SYNCED`). -/
def SYNC_STATUS_SYNCED : String := "SYNC_STATUS_SYNCED"

/-- Static context of one `initialize` run: the two pure utility
functions imported from web3-utils (external to src/) and the three
resolved contract addresses. -/
structure Ctx where
  addressesEqual : String → String → Bool
  toUtf8 : String → String
  stakeTokenAddress : String
  vaultAddress : String
  requestTokenAddress : String

/-- Values the awaited external calls of one reducer invocation resolve
with: `stakeToken.contract.totalSupply()` and the `updateBalances`
result inside `getRequestTokenSettings`. -/
structure Env where
  totalSupply : String
  balances : List BalanceRecord
deriving DecidableEq

/-- The new proposal object literal of the `ProposalAdded` branch
(script.js:130-137).  `link && toUtf8(link)` evaluates to the falsy
`link` itself (the empty string) when `link` is empty, else to
`toUtf8(link)`; the literal sets no `executed` property. -/
def newProposalOf (ctx : Ctx) (ev : Event) : Proposal :=
  { id := parseIntJs ev.returnValues.id
    name := ev.returnValues.title
    link :=
      if ev.returnValues.link = "" then some ev.returnValues.link
      else some (ctx.toUtf8 ev.returnValues.link)
    requestedAmount := parseIntJs ev.returnValues.amount
    creator := ev.returnValues.entity
    beneficiary := ev.returnValues.beneficiary }

/-- The new stake object literal of the `StakeChanged` branch
(script.js:149-156). -/
def newStakeOf (ev : Event) : ConvictionStake :=
  { entity := ev.returnValues.entity
    proposal := parseIntJs ev.returnValues.id
    tokensStaked := parseIntJs ev.returnValues.tokensStaked
    totalTokensStaked := parseIntJs ev.returnValues.totalTokensStaked
    time := ev.blockNumber
    conviction := parseIntJs ev.returnValues.conviction }

/-- Shallow embedding of `reducer` (script.js:91-182).  Every branch
first builds `nextState = { ...state }`: a freshly allocated state
object whose fields (including the array references) are those of the
input state.  The `ProposalAdded` and `StakeChanged` branches `push`
onto the array reachable through that shared reference, mutating the
array the input state also points to; the `ProposalExecuted` and
spread-producing branches allocate new objects/arrays instead. -/
def reducer (ctx : Ctx) (env : Env) (h : Heap) (state : AppState) (ev : Event) :
    Heap × AppState :=
  let nextState : AppState := { state with ref := h.fresh }
  let h1 : Heap := { h with fresh := h.fresh + 1 }
  if ctx.addressesEqual ev.address ctx.stakeTokenAddress then
    if ev.event = "Transfer" then
      ({ h1 with fresh := h1.fresh + 1 },
       { nextState with
           ref := h1.fresh
           stakeToken := { nextState.stakeToken with tokenSupply := some env.totalSupply } })
    else (h1, nextState)
  else if ctx.addressesEqual ev.address ctx.vaultAddress ∧
      ev.returnValues.token = ctx.requestTokenAddress then
    ({ h1 with fresh := h1.fresh + 1 },
     { nextState with
         ref := h1.fresh
         requestToken := some (getRequestTokenSettings ev.returnValues.token env.balances) })
  else if ev.event = "ProposalAdded" then
    ({ h1 with
         propArr := setArr h1.propArr nextState.proposals
           (h1.propArr nextState.proposals ++ [newProposalOf ctx ev]) },
     nextState)
  else if ev.event = "StakeChanged" then
    ({ h1 with
         stakeArr := setArr h1.stakeArr nextState.convictionStakes
           (h1.stakeArr nextState.convictionStakes ++ [newStakeOf ev]) },
     nextState)
  else if ev.event = "ProposalExecuted" then
    let mapped := (h1.propArr nextState.proposals).map (fun proposal =>
      if jsNumEq proposal.id (parseIntJs ev.returnValues.id) then
        { proposal with executed := some true }
      else proposal)
    let arrRef := h1.fresh
    let h2 : Heap := { h1 with propArr := setArr h1.propArr arrRef mapped, fresh := h1.fresh + 1 }
    ({ h2 with fresh := h2.fresh + 1 },
     { nextState with ref := h2.fresh, proposals := arrRef })
  else if ev.event = SYNC_STATUS_SYNCING then
    ({ h1 with fresh := h1.fresh + 1 },
     { nextState with ref := h1.fresh, isSyncing := true })
  else if ev.event = SYNC_STATUS_SYNCED then
    ({ h1 with fresh := h1.fresh + 1 },
     { nextState with ref := h1.fresh, isSyncing := false })
  else (h1, nextState)

/-- Cached state supplied by the store on startup.  Every field is
optional: the cache may be absent entirely (`Option CachedState` at the
use site) or lack any given property.  Note that `initState` reads
`cachedState.stakeTokenSettings`, which the persisted state stores
under the key `stakeToken`; the field is modelled as the optional
property `initState` actually reads. -/
structure CachedState where
  proposals : Option Nat := none
  convictionStakes : Option Nat := none
  globalParams : Option GlobalParams := none
  stakeTokenSettings : Option TokenSettings := none
  isSyncing : Option Bool := none
deriving DecidableEq

/-- Modelled from the spec: the cache-presence predicate
`hasLoadedTokenSettings` exported by token-settings.js (not under
src/), deciding whether cached token settings are already loaded. -/
def hasLoadedTokenSettings (cachedState : Option CachedState) : Bool :=
  match cachedState with
  | some c => c.stakeTokenSettings.isSome
  | none => false

/-- Shallow embedding of the function returned by `initState`
(script.js:198-227).  The awaited external results are parameters: the
three raw strings `loadGlobalParams` would read, the token settings
`loadTokenSettings` resolves with, and the `updateBalances` result list.
The assembled literal allocates the two empty arrays and the state
object; the spread of `cachedState` lets present cached fields win over
the empty defaults, after which `globalParams`, `stakeToken`,
`requestToken` and `isSyncing: true` are written unconditionally.
`app.identify(...)` is a fire-and-forget side effect with no state
impact and is not modelled. -/
def initState (decay maxRatioRaw weightRaw : String)
    (loadedTokenSettings : TokenSettings) (balances : List BalanceRecord)
    (requestTokenAddress : String) (h : Heap) (cachedState : Option CachedState) :
    Heap × AppState :=
  let globalParams : GlobalParams :=
    match cachedState with
    | some c =>
      match c.globalParams with
      | some g => g
      | none => loadGlobalParams decay maxRatioRaw weightRaw
    | none => loadGlobalParams decay maxRatioRaw weightRaw
  let stakeTokenSettings : TokenSettings :=
    if hasLoadedTokenSettings cachedState then
      match cachedState with
      | some c => c.stakeTokenSettings.getD loadedTokenSettings
      | none => loadedTokenSettings
    else loadedTokenSettings
  let requestTokenSettings := getRequestTokenSettings requestTokenAddress balances
  let pRef := h.fresh
  let sRef := h.fresh + 1
  let stRef := h.fresh + 2
  let h2 : Heap :=
    { propArr := setArr h.propArr pRef []
      stakeArr := setArr h.stakeArr sRef []
      fresh := h.fresh + 3 }
  (h2,
   { ref := stRef
     proposals :=
       match cachedState with
       | some c => c.proposals.getD pRef
       | none => pRef
     convictionStakes :=
       match cachedState with
       | some c => c.convictionStakes.getD sRef
       | none => sRef
     globalParams := globalParams
     stakeToken := stakeTokenSettings
     requestToken := some requestTokenSettings
     isSyncing := true })

/-- Shallow embedding of the inner `attempt` of `retryEvery`
(script.js:38-55).  The effectful callback is modelled as the sequence
of results of its successive invocations (`callback k` is what the
(k+1)-st invocation returns).  `remaining` stands for
`maxRetries - retryNum`; since `retryNum` only ever counts up from 0,
the source's guard `retryNum === maxRetries` is exactly `remaining = 0`.
The second component of the result is the total number of invocations
performed (the continuation of `k`). -/
def retryAttempt {ε α : Type} (callback : Nat → Except ε α) (increaseFactor : Nat) :
    Nat → Nat → Nat → Except ε α × Nat
  | 0, _, k =>
    -- retryNum === maxRetries: the budget is exhausted, the error of
    -- this (last) invocation propagates
    (match callback k with
     | .ok v => (.ok v, k + 1)
     | .error e => (.error e, k + 1))
  | r + 1, retryTimer, k =>
    -- nextRetryTime = retryTimer * increaseFactor; the log line and the
    -- awaited sleep do not affect the computed result
    (match callback k with
     | .ok v => (.ok v, k + 1)
     | .error _ => retryAttempt callback increaseFactor r (retryTimer * increaseFactor) (k + 1))

/-- Shallow embedding of `retryEvery` (script.js:31-58): runs `attempt`
starting with the full retry budget, the initial timer and invocation
index 0. -/
def retryEvery {ε α : Type} (callback : Nat → Except ε α)
    (initialRetryTimer increaseFactor maxRetries : Nat) : Except ε α × Nat :=
  retryAttempt callback increaseFactor maxRetries initialRetryTimer 0

/-- The dispatch condition under which control reaches the generic
event-name switch of the reducer: the event is not stake-token sourced
and is not a vault event for the watched request token. -/
abbrev reachesSwitch (ctx : Ctx) (ev : Event) : Prop :=
  ¬ ctx.addressesEqual ev.address ctx.stakeTokenAddress ∧
  ¬ (ctx.addressesEqual ev.address ctx.vaultAddress ∧
     ev.returnValues.token = ctx.requestTokenAddress)

/-- Value of the proposals array of a state. -/
def propsOf (h : Heap) (s : AppState) : List Proposal := h.propArr s.proposals

/-- Value of the convictionStakes array of a state. -/
def stakesOf (h : Heap) (s : AppState) : List ConvictionStake := h.stakeArr s.convictionStakes

/-- The per-element function of the `ProposalExecuted` map
(script.js:163-168). -/
def execFlip (tid : Option Int) (p : Proposal) : Proposal :=
  if jsNumEq p.id tid then { p with executed := some true } else p

/-- Pointwise effect of one reduction step on pre-existing proposals:
the identity unless the step is a `ProposalExecuted` handled by the
generic switch, in which case matching proposals get their flag set. -/
def execTransform (ctx : Ctx) (ev : Event) (p : Proposal) : Proposal :=
  if reachesSwitch ctx ev ∧ ev.event = "ProposalExecuted" then
    execFlip (parseIntJs ev.returnValues.id) p
  else p

/-- Proposals appended by one reduction step. -/
def appendedProposals (ctx : Ctx) (ev : Event) : List Proposal :=
  if reachesSwitch ctx ev ∧ ev.event = "ProposalAdded" then [newProposalOf ctx ev] else []

/-- Conviction stakes appended by one reduction step. -/
def appendedStakes (ctx : Ctx) (ev : Event) : List ConvictionStake :=
  if reachesSwitch ctx ev ∧ ev.event = "StakeChanged" then [newStakeOf ev] else []

/-- Folding a sequence of events through the reducer, as the external
store does; each event comes with the values its awaited external calls
resolve with. -/
def reduceFold (ctx : Ctx) (h : Heap) (s : AppState) : List (Env × Event) → Heap × AppState
  | [] => (h, s)
  | e :: rest =>
    let r := reducer ctx e.1 h s e.2
    reduceFold ctx r.1 r.2 rest

/-- How a pre-existing proposal may change across reduction steps: it
stays itself or gets its executed flag set. -/
def proposalEvolves (p q : Proposal) : Prop :=
  q = p ∨ q = { p with executed := some true }

theorem setArr_self {α : Type} (f : Nat → α) (r : Nat) (v : α) : setArr f r v r = v := by
  simp [setArr]

theorem setArr_ne {α : Type} (f : Nat → α) (r : Nat) (v : α) (i : Nat) (hi : i ≠ r) :
    setArr f r v i = f i := by
  simp [setArr, hi]

theorem reducer_stakeToken_default (ctx : Ctx) (env : Env) (h : Heap) (s : AppState) (ev : Event)
    (hst : ctx.addressesEqual ev.address ctx.stakeTokenAddress = true)
    (hev : ev.event ≠ "Transfer") :
    reducer ctx env h s ev = ({ h with fresh := h.fresh + 1 }, { s with ref := h.fresh }) := by
  simp [reducer, hst, hev]

theorem reducer_transfer (ctx : Ctx) (env : Env) (h : Heap) (s : AppState) (ev : Event)
    (hst : ctx.addressesEqual ev.address ctx.stakeTokenAddress = true)
    (hev : ev.event = "Transfer") :
    reducer ctx env h s ev =
      ({ h with fresh := h.fresh + 2 },
       { s with
           ref := h.fresh + 1
           stakeToken := { s.stakeToken with tokenSupply := some env.totalSupply } }) := by
  simp [reducer, hst, hev]

theorem reducer_vault_match (ctx : Ctx) (env : Env) (h : Heap) (s : AppState) (ev : Event)
    (hst : ctx.addressesEqual ev.address ctx.stakeTokenAddress = false)
    (hv : ctx.addressesEqual ev.address ctx.vaultAddress = true)
    (htok : ev.returnValues.token = ctx.requestTokenAddress) :
    reducer ctx env h s ev =
      ({ h with fresh := h.fresh + 2 },
       { s with
           ref := h.fresh + 1
           requestToken :=
             some (getRequestTokenSettings ev.returnValues.token env.balances) }) := by
  simp [reducer, hst, hv, htok]

theorem reducer_proposalAdded (ctx : Ctx) (env : Env) (h : Heap) (s : AppState) (ev : Event)
    (hst : ctx.addressesEqual ev.address ctx.stakeTokenAddress = false)
    (hnv : ¬ (ctx.addressesEqual ev.address ctx.vaultAddress = true ∧
              ev.returnValues.token = ctx.requestTokenAddress))
    (hev : ev.event = "ProposalAdded") :
    reducer ctx env h s ev =
      ({ h with
           fresh := h.fresh + 1
           propArr := setArr h.propArr s.proposals
             (h.propArr s.proposals ++ [newProposalOf ctx ev]) },
       { s with ref := h.fresh }) := by
  simp [reducer, hst, hnv, hev]

theorem reducer_stakeChanged (ctx : Ctx) (env : Env) (h : Heap) (s : AppState) (ev : Event)
    (hst : ctx.addressesEqual ev.address ctx.stakeTokenAddress = false)
    (hnv : ¬ (ctx.addressesEqual ev.address ctx.vaultAddress = true ∧
              ev.returnValues.token = ctx.requestTokenAddress))
    (hev : ev.event = "StakeChanged") :
    reducer ctx env h s ev =
      ({ h with
           fresh := h.fresh + 1
           stakeArr := setArr h.stakeArr s.convictionStakes
             (h.stakeArr s.convictionStakes ++ [newStakeOf ev]) },
       { s with ref := h.fresh }) := by
  have hne1 : ev.event ≠ "ProposalAdded" := by rw [hev]; decide
  simp [reducer, hst, hnv, hne1, hev]

theorem reducer_proposalExecuted (ctx : Ctx) (env : Env) (h : Heap) (s : AppState) (ev : Event)
    (hst : ctx.addressesEqual ev.address ctx.stakeTokenAddress = false)
    (hnv : ¬ (ctx.addressesEqual ev.address ctx.vaultAddress = true ∧
              ev.returnValues.token = ctx.requestTokenAddress))
    (hev : ev.event = "ProposalExecuted") :
    reducer ctx env h s ev =
      ({ h with
           fresh := h.fresh + 3
           propArr := setArr h.propArr (h.fresh + 1)
             ((h.propArr s.proposals).map (execFlip (parseIntJs ev.returnValues.id))) },
       { s with ref := h.fresh + 2, proposals := h.fresh + 1 }) := by
  simp only [reducer, hst, hnv, hev]
  simp
  rfl

theorem reducer_syncing (ctx : Ctx) (env : Env) (h : Heap) (s : AppState) (ev : Event)
    (hst : ctx.addressesEqual ev.address ctx.stakeTokenAddress = false)
    (hnv : ¬ (ctx.addressesEqual ev.address ctx.vaultAddress = true ∧
              ev.returnValues.token = ctx.requestTokenAddress))
    (hev : ev.event = SYNC_STATUS_SYNCING) :
    reducer ctx env h s ev =
      ({ h with fresh := h.fresh + 2 },
       { s with ref := h.fresh + 1, isSyncing := true }) := by
  simp [reducer, hst, hnv, hev, SYNC_STATUS_SYNCING, SYNC_STATUS_SYNCED]

theorem reducer_synced (ctx : Ctx) (env : Env) (h : Heap) (s : AppState) (ev : Event)
    (hst : ctx.addressesEqual ev.address ctx.stakeTokenAddress = false)
    (hnv : ¬ (ctx.addressesEqual ev.address ctx.vaultAddress = true ∧
              ev.returnValues.token = ctx.requestTokenAddress))
    (hev : ev.event = SYNC_STATUS_SYNCED) :
    reducer ctx env h s ev =
      ({ h with fresh := h.fresh + 2 },
       { s with ref := h.fresh + 1, isSyncing := false }) := by
  simp [reducer, hst, hnv, hev, SYNC_STATUS_SYNCING, SYNC_STATUS_SYNCED]

theorem reducer_default (ctx : Ctx) (env : Env) (h : Heap) (s : AppState) (ev : Event)
    (hst : ctx.addressesEqual ev.address ctx.stakeTokenAddress = false)
    (hnv : ¬ (ctx.addressesEqual ev.address ctx.vaultAddress = true ∧
              ev.returnValues.token = ctx.requestTokenAddress))
    (hne1 : ev.event ≠ "ProposalAdded") (hne2 : ev.event ≠ "StakeChanged")
    (hne3 : ev.event ≠ "ProposalExecuted") (hne4 : ev.event ≠ SYNC_STATUS_SYNCING)
    (hne5 : ev.event ≠ SYNC_STATUS_SYNCED) :
    reducer ctx env h s ev = ({ h with fresh := h.fresh + 1 }, { s with ref := h.fresh }) := by
  simp [reducer, hst, hnv, hne1, hne2, hne3, hne4, hne5]

instance (ctx : Ctx) (ev : Event) : Decidable (reachesSwitch ctx ev) :=
  decidable_of_iff
    (¬ ctx.addressesEqual ev.address ctx.stakeTokenAddress ∧
     ¬ (ctx.addressesEqual ev.address ctx.vaultAddress ∧
        ev.returnValues.token = ctx.requestTokenAddress))
    Iff.rfl

/-- Conviction stakes appended over a whole event sequence, in arrival
order. -/
def appendedStakesAll (ctx : Ctx) : List (Env × Event) → List ConvictionStake
  | [] => []
  | e :: rest => appendedStakes ctx e.2 ++ appendedStakesAll ctx rest

/-- Proposals appended over a whole event sequence, in arrival order. -/
def appendedProposalsAll (ctx : Ctx) : List (Env × Event) → List Proposal
  | [] => []
  | e :: rest => appendedProposals ctx e.2 ++ appendedProposalsAll ctx rest

theorem proposalEvolves_refl (p : Proposal) : proposalEvolves p p := Or.inl rfl

theorem proposalEvolves_trans {p q r : Proposal} (h1 : proposalEvolves p q)
    (h2 : proposalEvolves q r) : proposalEvolves p r := by
  rcases h1 with rfl | rfl <;> rcases h2 with rfl | rfl
  · exact Or.inl rfl
  · exact Or.inr rfl
  · exact Or.inr rfl
  · exact Or.inr rfl

theorem forall2_evolve_refl (l : List Proposal) : List.Forall₂ proposalEvolves l l := by
  induction l with
  | nil => exact List.Forall₂.nil
  | cons a t ih => exact List.Forall₂.cons (proposalEvolves_refl a) ih

theorem forall2_append {α β : Type} {r : α → β → Prop} {a c : List α} {b d : List β}
    (h1 : List.Forall₂ r a b) (h2 : List.Forall₂ r c d) :
    List.Forall₂ r (a ++ c) (b ++ d) := by
  induction h1 with
  | nil => simpa using h2
  | cons hab _ ih => exact List.Forall₂.cons hab ih

theorem forall2_map_evolve (l : List Proposal) (f : Proposal → Proposal)
    (hf : ∀ p, proposalEvolves p (f p)) : List.Forall₂ proposalEvolves l (l.map f) := by
  induction l with
  | nil => exact List.Forall₂.nil
  | cons a t ih => exact List.Forall₂.cons (hf a) ih

theorem forall2_evolve_trans : ∀ {a b c : List Proposal},
    List.Forall₂ proposalEvolves a b → List.Forall₂ proposalEvolves b c →
    List.Forall₂ proposalEvolves a c := by
  intro a b c h1
  induction h1 generalizing c with
  | nil => intro h2; cases h2; exact List.Forall₂.nil
  | cons hab _ ih =>
    intro h2
    cases h2 with
    | cons hbc h2t => exact List.Forall₂.cons (proposalEvolves_trans hab hbc) (ih h2t)

theorem execTransform_evolves (ctx : Ctx) (ev : Event) (p : Proposal) :
    proposalEvolves p (execTransform ctx ev p) := by
  unfold execTransform execFlip
  split_ifs with h1 h2
  · exact Or.inr rfl
  · exact Or.inl rfl
  · exact Or.inl rfl

theorem appendedProposals_pos (ctx : Ctx) (ev : Event) (hrs : reachesSwitch ctx ev)
    (hA : ev.event = "ProposalAdded") :
    appendedProposals ctx ev = [newProposalOf ctx ev] := by
  unfold appendedProposals; exact if_pos ⟨hrs, hA⟩

theorem appendedProposals_neg (ctx : Ctx) (ev : Event)
    (hne : ¬ (reachesSwitch ctx ev ∧ ev.event = "ProposalAdded")) :
    appendedProposals ctx ev = [] := by
  unfold appendedProposals; exact if_neg hne

theorem appendedStakes_pos (ctx : Ctx) (ev : Event) (hrs : reachesSwitch ctx ev)
    (hS : ev.event = "StakeChanged") :
    appendedStakes ctx ev = [newStakeOf ev] := by
  unfold appendedStakes; exact if_pos ⟨hrs, hS⟩

theorem appendedStakes_neg (ctx : Ctx) (ev : Event)
    (hne : ¬ (reachesSwitch ctx ev ∧ ev.event = "StakeChanged")) :
    appendedStakes ctx ev = [] := by
  unfold appendedStakes; exact if_neg hne

theorem map_execTransform_id (ctx : Ctx) (ev : Event)
    (hne : ¬ (reachesSwitch ctx ev ∧ ev.event = "ProposalExecuted")) (l : List Proposal) :
    l.map (execTransform ctx ev) = l := by
  have hfun : ∀ p, execTransform ctx ev p = p := fun p => by
    unfold execTransform; exact if_neg hne
  induction l with
  | nil => rfl
  | cons a t ih => rw [List.map_cons, hfun, ih]

theorem map_execTransform_flip (ctx : Ctx) (ev : Event) (hrs : reachesSwitch ctx ev)
    (hE : ev.event = "ProposalExecuted") (l : List Proposal) :
    l.map (execTransform ctx ev) = l.map (execFlip (parseIntJs ev.returnValues.id)) := by
  have hfun : ∀ p, execTransform ctx ev p = execFlip (parseIntJs ev.returnValues.id) p :=
    fun p => by unfold execTransform; exact if_pos ⟨hrs, hE⟩
  induction l with
  | nil => rfl
  | cons a t ih => rw [List.map_cons, List.map_cons, hfun, ih]

/-- Effect of one reduction step on the values of the two arrays: the
pre-existing proposals are (at most) executed-flipped, appended objects
land at the end, stakes are only ever appended.  Holds for every
dispatch outcome. -/
theorem reducer_arrays (ctx : Ctx) (env : Env) (h : Heap) (s : AppState) (ev : Event) :
    propsOf (reducer ctx env h s ev).1 (reducer ctx env h s ev).2
      = (propsOf h s).map (execTransform ctx ev) ++ appendedProposals ctx ev
  ∧ stakesOf (reducer ctx env h s ev).1 (reducer ctx env h s ev).2
      = stakesOf h s ++ appendedStakes ctx ev := by
  cases hst : ctx.addressesEqual ev.address ctx.stakeTokenAddress with
  | true =>
    have hrs : ¬ reachesSwitch ctx ev := fun hr => hr.1 hst
    have e1 := map_execTransform_id ctx ev (fun hand => hrs hand.1) (h.propArr s.proposals)
    have e2 := appendedProposals_neg ctx ev (fun hand => hrs hand.1)
    have e3 := appendedStakes_neg ctx ev (fun hand => hrs hand.1)
    by_cases hev : ev.event = "Transfer"
    · rw [reducer_transfer ctx env h s ev hst hev]
      exact ⟨by simp [propsOf, e1, e2], by simp [stakesOf, e3]⟩
    · rw [reducer_stakeToken_default ctx env h s ev hst hev]
      exact ⟨by simp [propsOf, e1, e2], by simp [stakesOf, e3]⟩
  | false =>
    by_cases hv : ctx.addressesEqual ev.address ctx.vaultAddress = true ∧
        ev.returnValues.token = ctx.requestTokenAddress
    · have hrs : ¬ reachesSwitch ctx ev := fun hr => hr.2 hv
      have e1 := map_execTransform_id ctx ev (fun hand => hrs hand.1) (h.propArr s.proposals)
      have e2 := appendedProposals_neg ctx ev (fun hand => hrs hand.1)
      have e3 := appendedStakes_neg ctx ev (fun hand => hrs hand.1)
      rw [reducer_vault_match ctx env h s ev hst hv.1 hv.2]
      exact ⟨by simp [propsOf, e1, e2], by simp [stakesOf, e3]⟩
    · have hrs : reachesSwitch ctx ev := ⟨by simp [hst], hv⟩
      by_cases hA : ev.event = "ProposalAdded"
      · have hneE : ¬ (reachesSwitch ctx ev ∧ ev.event = "ProposalExecuted") := fun hand =>
          (by decide : ("ProposalAdded" : String) ≠ "ProposalExecuted") (hA.symm.trans hand.2)
        have hneS : ¬ (reachesSwitch ctx ev ∧ ev.event = "StakeChanged") := fun hand =>
          (by decide : ("ProposalAdded" : String) ≠ "StakeChanged") (hA.symm.trans hand.2)
        have e1 := map_execTransform_id ctx ev hneE (h.propArr s.proposals)
        have e2 := appendedProposals_pos ctx ev hrs hA
        have e3 := appendedStakes_neg ctx ev hneS
        rw [reducer_proposalAdded ctx env h s ev hst hv hA]
        exact ⟨by simp [propsOf, e1, e2, setArr_self], by simp [stakesOf, e3]⟩
      · by_cases hS : ev.event = "StakeChanged"
        · have hneE : ¬ (reachesSwitch ctx ev ∧ ev.event = "ProposalExecuted") := fun hand =>
            (by decide : ("StakeChanged" : String) ≠ "ProposalExecuted") (hS.symm.trans hand.2)
          have hneA : ¬ (reachesSwitch ctx ev ∧ ev.event = "ProposalAdded") := fun hand =>
            hA hand.2
          have e1 := map_execTransform_id ctx ev hneE (h.propArr s.proposals)
          have e2 := appendedProposals_neg ctx ev hneA
          have e3 := appendedStakes_pos ctx ev hrs hS
          rw [reducer_stakeChanged ctx env h s ev hst hv hS]
          exact ⟨by simp [propsOf, e1, e2], by simp [stakesOf, e3, setArr_self]⟩
        · by_cases hE : ev.event = "ProposalExecuted"
          · have e1 := map_execTransform_flip ctx ev hrs hE (h.propArr s.proposals)
            have e2 := appendedProposals_neg ctx ev (fun hand => hA hand.2)
            have e3 := appendedStakes_neg ctx ev (fun hand => hS hand.2)
            rw [reducer_proposalExecuted ctx env h s ev hst hv hE]
            exact ⟨by simp [propsOf, e1, e2, setArr_self], by simp [stakesOf, e3]⟩
          · have e1 := map_execTransform_id ctx ev (fun hand => hE hand.2) (h.propArr s.proposals)
            have e2 := appendedProposals_neg ctx ev (fun hand => hA hand.2)
            have e3 := appendedStakes_neg ctx ev (fun hand => hS hand.2)
            by_cases hc : ev.event = SYNC_STATUS_SYNCING
            · rw [reducer_syncing ctx env h s ev hst hv hc]
              exact ⟨by simp [propsOf, e1, e2], by simp [stakesOf, e3]⟩
            · by_cases hd : ev.event = SYNC_STATUS_SYNCED
              · rw [reducer_synced ctx env h s ev hst hv hd]
                exact ⟨by simp [propsOf, e1, e2], by simp [stakesOf, e3]⟩
              · rw [reducer_default ctx env h s ev hst hv hA hS hE hc hd]
                exact ⟨by simp [propsOf, e1, e2], by simp [stakesOf, e3]⟩

/-- Folding distributes over concatenation of event sequences. -/
theorem reduceFold_append (ctx : Ctx) :
    ∀ (pre post : List (Env × Event)) (h : Heap) (s : AppState),
    reduceFold ctx h s (pre ++ post)
      = reduceFold ctx (reduceFold ctx h s pre).1 (reduceFold ctx h s pre).2 post := by
  intro pre
  induction pre with
  | nil => intro post h s; rfl
  | cons e rest ih =>
    intro post h s
    exact ih post (reducer ctx e.1 h s e.2).1 (reducer ctx e.1 h s e.2).2

/-- Effect of folding a whole event sequence on the values of the two
arrays. -/
theorem reduceFold_arrays (ctx : Ctx) :
    ∀ (evs : List (Env × Event)) (h : Heap) (s : AppState),
    stakesOf (reduceFold ctx h s evs).1 (reduceFold ctx h s evs).2
      = stakesOf h s ++ appendedStakesAll ctx evs
  ∧ List.Forall₂ proposalEvolves (propsOf h s ++ appendedProposalsAll ctx evs)
      (propsOf (reduceFold ctx h s evs).1 (reduceFold ctx h s evs).2) := by
  intro evs
  induction evs with
  | nil =>
    intro h s
    constructor
    · simp [reduceFold, appendedStakesAll]
    · simpa [reduceFold, appendedProposalsAll] using forall2_evolve_refl (propsOf h s)
  | cons e rest ih =>
    intro h s
    have hstep := reducer_arrays ctx e.1 h s e.2
    obtain ⟨ihs, ihp⟩ := ih (reducer ctx e.1 h s e.2).1 (reducer ctx e.1 h s e.2).2
    have hfold : reduceFold ctx h s (e :: rest)
        = reduceFold ctx (reducer ctx e.1 h s e.2).1 (reducer ctx e.1 h s e.2).2 rest := rfl
    constructor
    · rw [hfold, ihs, hstep.2]
      simp [appendedStakesAll, List.append_assoc]
    · rw [hfold]
      have h1 : List.Forall₂ proposalEvolves (propsOf h s ++ appendedProposals ctx e.2)
          (propsOf (reducer ctx e.1 h s e.2).1 (reducer ctx e.1 h s e.2).2) := by
        rw [hstep.1]
        exact forall2_append
          (forall2_map_evolve (propsOf h s) (execTransform ctx e.2) (execTransform_evolves ctx e.2))
          (forall2_evolve_refl (appendedProposals ctx e.2))
      have h2 := forall2_append h1 (forall2_evolve_refl (appendedProposalsAll ctx rest))
      have h3 := forall2_evolve_trans h2 ihp
      simpa [appendedProposalsAll, List.append_assoc] using h3

theorem event_notin_handled {e : String}
    (hname : e ∉ ["ProposalAdded", "StakeChanged", "ProposalExecuted",
                   SYNC_STATUS_SYNCING, SYNC_STATUS_SYNCED]) :
    e ≠ "ProposalAdded" ∧ e ≠ "StakeChanged" ∧ e ≠ "ProposalExecuted" ∧
    e ≠ SYNC_STATUS_SYNCING ∧ e ≠ SYNC_STATUS_SYNCED := by
  refine ⟨fun hh => hname ?_, fun hh => hname ?_, fun hh => hname ?_,
          fun hh => hname ?_, fun hh => hname ?_⟩ <;> simp [hh]

/-- Sample context for concrete evaluations: literal address equality,
identity decoding, distinct watched addresses. -/
def sampleCtx : Ctx := ⟨fun a b => a == b, fun s => s, "ST", "VA", "RT"⟩

/-- Sample awaited-call results. -/
def sampleEnv : Env := ⟨"1000", []⟩

/-- Sample global parameters. -/
def sampleParams : GlobalParams := ⟨some 1, some 2, some 3⟩

/-- Sample token settings. -/
def sampleToken : TokenSettings := { tokenSymbol := "TKN" }

/-- Sample heap: references 0 and 1 are allocated (empty) arrays. -/
def sampleHeap : Heap := ⟨fun _ => [], fun _ => [], 2⟩

/-- Sample state: object 0, proposals array at reference 0, stakes array
at reference 1. -/
def sampleState : AppState := ⟨0, 0, 1, sampleParams, sampleToken, none, false⟩

/-- Sample `ProposalAdded` return values, with an empty link. -/
def sampleAddRv : ReturnValues :=
  { entity := "0xa"
    id := "1"
    title := "Fund X"
    amount := "500"
    beneficiary := "0xb"
    link := "" }

/-- Sample `ProposalAdded` event from the voting contract's address. -/
def sampleAddEvent : Event := ⟨"ProposalAdded", sampleAddRv, 5, "CV"⟩

/-- Sample event whose name and source match no handled case. -/
def fooEvent : Event := ⟨"Foo", {}, 5, "CV"⟩

/-- Sample vault event for the watched request token. -/
def vaultEvent : Event := ⟨"Deposit", { token := "RT" }, 1, "VA"⟩

/-- Sample proposal with id 7 and executed false. -/
def dupProposal : Proposal := ⟨some 7, "A", some "l", some 1, "c", "b", some false⟩

/-- Heap whose proposals array (reference 0) holds two proposals that
both have id 7. -/
def dupHeap : Heap := ⟨fun r => if r = 0 then [dupProposal, dupProposal] else [], fun _ => [], 2⟩

/-- Heap whose proposals array (reference 0) holds one proposal with
id 7. -/
def execHeap : Heap := ⟨fun r => if r = 0 then [dupProposal] else [], fun _ => [], 2⟩

/-- Sample `ProposalExecuted` event for id 7. -/
def execEvent : Event := ⟨"ProposalExecuted", { id := "7" }, 9, "CV"⟩

/-- C1 counterexample: the event `Foo` from an unwatched address matches
no handled case, yet the reducer returns a fresh shallow copy of the
input state (structurally equal, all fields preserved), not the input
state object itself — so `reduce(S, E) === S` fails. -/
theorem claim_C1_cex :
    (reducer sampleCtx sampleEnv sampleHeap sampleState fooEvent).2
        = { sampleState with ref := 2 }
  ∧ (reducer sampleCtx sampleEnv sampleHeap sampleState fooEvent).2 ≠ sampleState := by
  constructor
  · decide
  · decide

/-- C1 (amended): for every state `S` and event whose name/source match
none of the handled cases, the reducer returns a state structurally
identical to `S` — a fresh shallow copy whose every field (including
the two array references) is exactly `S`'s, with the heap untouched
except for the allocation of the copy — but not the identical object:
when `S` is an allocated object the result's identity differs from
`S`'s. -/
theorem claim_C1 (ctx : Ctx) (env : Env) (h : Heap) (s : AppState) (ev : Event)
    (hst : ctx.addressesEqual ev.address ctx.stakeTokenAddress = true → ev.event ≠ "Transfer")
    (hv : ctx.addressesEqual ev.address ctx.vaultAddress = true →
          ev.returnValues.token ≠ ctx.requestTokenAddress)
    (hname : ev.event ∉ ["ProposalAdded", "StakeChanged", "ProposalExecuted",
                          SYNC_STATUS_SYNCING, SYNC_STATUS_SYNCED]) :
    reducer ctx env h s ev = ({ h with fresh := h.fresh + 1 }, { s with ref := h.fresh })
  ∧ (s.ref < h.fresh → (reducer ctx env h s ev).2 ≠ s) := by
  obtain ⟨hne1, hne2, hne3, hne4, hne5⟩ := event_notin_handled hname
  have hred : reducer ctx env h s ev
      = ({ h with fresh := h.fresh + 1 }, { s with ref := h.fresh }) := by
    cases hstb : ctx.addressesEqual ev.address ctx.stakeTokenAddress with
    | true => exact reducer_stakeToken_default ctx env h s ev hstb (hst hstb)
    | false =>
      by_cases hvb : ctx.addressesEqual ev.address ctx.vaultAddress = true ∧
          ev.returnValues.token = ctx.requestTokenAddress
      · exact absurd hvb.2 (hv hvb.1)
      · exact reducer_default ctx env h s ev hstb hvb hne1 hne2 hne3 hne4 hne5
  refine ⟨hred, fun hlt heq => ?_⟩
  rw [hred] at heq
  have hr : h.fresh = s.ref := congrArg AppState.ref heq
  omega

/-- C1 witness: the amended theorem evaluated on the concrete unhandled
event. -/
theorem claim_C1_w :
    reducer sampleCtx sampleEnv sampleHeap sampleState fooEvent
      = ({ sampleHeap with fresh := 3 }, { sampleState with ref := 2 })
  ∧ (reducer sampleCtx sampleEnv sampleHeap sampleState fooEvent).2 ≠ sampleState := by
  have hmain := claim_C1 sampleCtx sampleEnv sampleHeap sampleState fooEvent
    (by decide) (by decide) (by decide)
  exact ⟨hmain.1, hmain.2 (by decide)⟩

/-- C2 counterexample: reducing a `ProposalAdded` event mutates the
proposals array of the INPUT state in place: the heap cell the input
state's `proposals` reference points to holds a different value after
the reduction (the new proposal was pushed onto the shared array). -/
theorem claim_C2_cex :
    (reducer sampleCtx sampleEnv sampleHeap sampleState sampleAddEvent).1.propArr
        sampleState.proposals
      ≠ sampleHeap.propArr sampleState.proposals := by
  decide

/-- C2 (amended): for every state and `ProposalAdded` / `StakeChanged` /
`ProposalExecuted` event handled through the generic switch, the input
state object's own fields are never reassigned, and for
`ProposalExecuted` the result's proposals is a newly produced array (a
fresh reference) while the input's arrays are untouched; but for
`ProposalAdded` and `StakeChanged` the new element is pushed in place
onto the array the result shares with the input state, so the input
state's array gains the element. -/
theorem claim_C2 (ctx : Ctx) (env : Env) (h : Heap) (s : AppState) (ev : Event)
    (hrs : reachesSwitch ctx ev)
    (hval : s.proposals < h.fresh ∧ s.convictionStakes < h.fresh) :
    (ev.event = "ProposalAdded" →
       (reducer ctx env h s ev).2.proposals = s.proposals
     ∧ (reducer ctx env h s ev).1.propArr s.proposals
         = h.propArr s.proposals ++ [newProposalOf ctx ev]
     ∧ (reducer ctx env h s ev).1.stakeArr = h.stakeArr)
  ∧ (ev.event = "StakeChanged" →
       (reducer ctx env h s ev).2.convictionStakes = s.convictionStakes
     ∧ (reducer ctx env h s ev).1.stakeArr s.convictionStakes
         = h.stakeArr s.convictionStakes ++ [newStakeOf ev]
     ∧ (reducer ctx env h s ev).1.propArr = h.propArr)
  ∧ (ev.event = "ProposalExecuted" →
       (reducer ctx env h s ev).1.propArr s.proposals = h.propArr s.proposals
     ∧ (reducer ctx env h s ev).1.stakeArr = h.stakeArr
     ∧ (reducer ctx env h s ev).2.proposals = h.fresh + 1
     ∧ (reducer ctx env h s ev).2.proposals ≠ s.proposals
     ∧ (reducer ctx env h s ev).1.propArr (reducer ctx env h s ev).2.proposals
         = (h.propArr s.proposals).map (execFlip (parseIntJs ev.returnValues.id))) := by
  have hstf : ctx.addressesEqual ev.address ctx.stakeTokenAddress = false := by
    cases hb : ctx.addressesEqual ev.address ctx.stakeTokenAddress
    · rfl
    · exact absurd hb hrs.1
  refine ⟨fun hA => ?_, fun hS => ?_, fun hE => ?_⟩
  · rw [reducer_proposalAdded ctx env h s ev hstf hrs.2 hA]
    exact ⟨rfl, setArr_self h.propArr s.proposals _, rfl⟩
  · rw [reducer_stakeChanged ctx env h s ev hstf hrs.2 hS]
    exact ⟨rfl, setArr_self h.stakeArr s.convictionStakes _, rfl⟩
  · rw [reducer_proposalExecuted ctx env h s ev hstf hrs.2 hE]
    refine ⟨setArr_ne h.propArr (h.fresh + 1) _ s.proposals (by omega), rfl, rfl, ?_, ?_⟩
    · show h.fresh + 1 ≠ s.proposals
      omega
    · exact setArr_self h.propArr (h.fresh + 1) _
  
/-- C2 witness: the amended theorem evaluated on the concrete
`ProposalAdded` event — the result state keeps the input's array
reference and that shared array gained the new element. -/
theorem claim_C2_w :
    (reducer sampleCtx sampleEnv sampleHeap sampleState sampleAddEvent).2.proposals
        = sampleState.proposals
  ∧ (reducer sampleCtx sampleEnv sampleHeap sampleState sampleAddEvent).1.propArr
        sampleState.proposals
      = sampleHeap.propArr sampleState.proposals ++ [newProposalOf sampleCtx sampleAddEvent] := by
  have hmain := claim_C2 sampleCtx sampleEnv sampleHeap sampleState sampleAddEvent
    (by decide) (by decide)
  exact ⟨(hmain.1 rfl).1, (hmain.1 rfl).2.1⟩

/-- C3 counterexample: for a `ProposalAdded` event whose link is the
empty string, the appended proposal's link is the empty STRING (the
falsy `link` value itself, since `link && toUtf8(link)` short-circuits),
not `null`; and the literal sets no `executed` property at all, so
`executed` is absent (`undefined`), not the boolean `false`. -/
theorem claim_C3_cex :
    (newProposalOf sampleCtx sampleAddEvent).link = some ""
  ∧ (newProposalOf sampleCtx sampleAddEvent).link ≠ none
  ∧ (newProposalOf sampleCtx sampleAddEvent).executed = none
  ∧ (newProposalOf sampleCtx sampleAddEvent).executed ≠ some false
  ∧ (reducer sampleCtx sampleEnv sampleHeap sampleState sampleAddEvent).1.propArr
        sampleState.proposals = [newProposalOf sampleCtx sampleAddEvent] := by
  refine ⟨by decide, by decide, by decide, by decide, by decide⟩

/-- C3 (amended): for every state and every `ProposalAdded` event
reaching the generic switch, the reducer appends exactly one new
Proposal whose id is `parseInt` of `returnValues.id`, name is
`returnValues.title`, requestedAmount is `parseInt` of
`returnValues.amount`, creator is `returnValues.entity`, beneficiary is
`returnValues.beneficiary`, whose link is the decoded text of
`returnValues.link` when it is non-empty and the raw empty string (not
null) when it is empty, and whose `executed` field is left absent
(undefined), not set to false. -/
theorem claim_C3 (ctx : Ctx) (env : Env) (h : Heap) (s : AppState) (ev : Event)
    (hrs : reachesSwitch ctx ev) (hev : ev.event = "ProposalAdded") :
    (reducer ctx env h s ev).1.propArr s.proposals
      = h.propArr s.proposals ++ [newProposalOf ctx ev]
  ∧ (reducer ctx env h s ev).2 = { s with ref := h.fresh }
  ∧ newProposalOf ctx ev =
      { id := parseIntJs ev.returnValues.id
        name := ev.returnValues.title
        link := if ev.returnValues.link = "" then some ev.returnValues.link
                else some (ctx.toUtf8 ev.returnValues.link)
        requestedAmount := parseIntJs ev.returnValues.amount
        creator := ev.returnValues.entity
        beneficiary := ev.returnValues.beneficiary
        executed := none } := by
  have hstf : ctx.addressesEqual ev.address ctx.stakeTokenAddress = false := by
    cases hb : ctx.addressesEqual ev.address ctx.stakeTokenAddress
    · rfl
    · exact absurd hb hrs.1
  refine ⟨?_, ?_, rfl⟩
  · rw [reducer_proposalAdded ctx env h s ev hstf hrs.2 hev]
    exact setArr_self h.propArr s.proposals _
  · rw [reducer_proposalAdded ctx env h s ev hstf hrs.2 hev]

/-- C3 witness: the amended theorem evaluated on the concrete
`ProposalAdded` event with an empty link. -/
theorem claim_C3_w :
    (reducer sampleCtx sampleEnv sampleHeap sampleState sampleAddEvent).1.propArr
        sampleState.proposals = [newProposalOf sampleCtx sampleAddEvent] := by
  have hmain := claim_C3 sampleCtx sampleEnv sampleHeap sampleState sampleAddEvent
    (by decide) rfl
  simpa using hmain.1

/-- C4 counterexample: in a state whose proposals array holds TWO
proposals with id 7 and executed false, reducing `ProposalExecuted`
with id "7" flips BOTH of them, so "that proposal's executed is true
and every other proposal is unchanged by value" fails: the other
matching proposal also changed. -/
theorem claim_C4_cex :
    dupHeap.propArr sampleState.proposals = [dupProposal, dupProposal]
  ∧ dupProposal.id = some 7 ∧ dupProposal.executed = some false
  ∧ (reducer sampleCtx sampleEnv dupHeap sampleState execEvent).1.propArr
        (reducer sampleCtx sampleEnv dupHeap sampleState execEvent).2.proposals
      = [{ dupProposal with executed := some true }, { dupProposal with executed := some true }]
  ∧ ({ dupProposal with executed := some true } : Proposal) ≠ dupProposal := by
  refine ⟨by decide, by decide, by decide, by decide, by decide⟩

/-- C4 (amended): for every state and every `ProposalExecuted` event
reaching the generic switch, the result's proposals array is the map of
the old array under the flip function: every proposal whose stored id
strictly equals the parsed event id gets `executed := true` (so a
matching proposal with executed false ends up executed true), every
proposal whose id does not match is unchanged by value, no proposal is
added or removed (length preserved), and the proposals field of the
result is a freshly allocated array — a new reference, distinct from
the input's, even when no proposal matches — while the input's array
cell is untouched. -/
theorem claim_C4 (ctx : Ctx) (env : Env) (h : Heap) (s : AppState) (ev : Event)
    (hrs : reachesSwitch ctx ev) (hev : ev.event = "ProposalExecuted") :
    (reducer ctx env h s ev).1.propArr (reducer ctx env h s ev).2.proposals
      = (h.propArr s.proposals).map (execFlip (parseIntJs ev.returnValues.id))
  ∧ ((reducer ctx env h s ev).1.propArr (reducer ctx env h s ev).2.proposals).length
      = (h.propArr s.proposals).length
  ∧ (∀ p ∈ h.propArr s.proposals, jsNumEq p.id (parseIntJs ev.returnValues.id) = true →
       execFlip (parseIntJs ev.returnValues.id) p = { p with executed := some true })
  ∧ (∀ p ∈ h.propArr s.proposals, jsNumEq p.id (parseIntJs ev.returnValues.id) = false →
       execFlip (parseIntJs ev.returnValues.id) p = p)
  ∧ (reducer ctx env h s ev).2.proposals = h.fresh + 1
  ∧ (s.proposals < h.fresh →
       (reducer ctx env h s ev).2.proposals ≠ s.proposals
     ∧ (reducer ctx env h s ev).1.propArr s.proposals = h.propArr s.proposals) := by
  have hstf : ctx.addressesEqual ev.address ctx.stakeTokenAddress = false := by
    cases hb : ctx.addressesEqual ev.address ctx.stakeTokenAddress
    · rfl
    · exact absurd hb hrs.1
  have hred := reducer_proposalExecuted ctx env h s ev hstf hrs.2 hev
  have hA : (reducer ctx env h s ev).1.propArr (reducer ctx env h s ev).2.proposals
      = (h.propArr s.proposals).map (execFlip (parseIntJs ev.returnValues.id)) := by
    rw [hred]
    exact setArr_self h.propArr (h.fresh + 1) _
  have hRef : (reducer ctx env h s ev).2.proposals = h.fresh + 1 := by rw [hred]
  refine ⟨hA, by rw [hA, List.length_map], ?_, ?_, hRef, fun hlt => ⟨?_, ?_⟩⟩
  · intro p _ hmatch
    simp [execFlip, hmatch]
  · intro p _ hmatch
    simp [execFlip, hmatch]
  · rw [hRef]
    omega
  · rw [hred]
    exact setArr_ne h.propArr (h.fresh + 1) _ s.proposals (by omega)

/-- C4 witness: the amended theorem evaluated on a concrete state with
one matching proposal: the flag flips, the array is new (reference 3,
input's array was reference 0). -/
theorem claim_C4_w :
    (reducer sampleCtx sampleEnv execHeap sampleState execEvent).1.propArr
        (reducer sampleCtx sampleEnv execHeap sampleState execEvent).2.proposals
      = [{ dupProposal with executed := some true }]
  ∧ (reducer sampleCtx sampleEnv execHeap sampleState execEvent).2.proposals = 3
  ∧ (reducer sampleCtx sampleEnv execHeap sampleState execEvent).2.proposals
      ≠ sampleState.proposals := by
  have hmain := claim_C4 sampleCtx sampleEnv execHeap sampleState execEvent
    (by decide) rfl
  refine ⟨?_, hmain.2.2.2.2.1, (hmain.2.2.2.2.2 (by decide)).1⟩
  rw [hmain.1]
  decide

/-- C5: dispatch order of the reducer for vault-classified events (vault
address matches, stake-token address does not).  When
`returnValues.token` equals the watched request-token address the
reducer returns immediately with only `requestToken` recomputed via the
vault-balance resolver result — the heap (both arrays) is untouched and
every other state field is preserved, so the generic switch is never
reached, whatever the event name.  When the token differs, control
falls through to the generic event-name switch: a `ProposalAdded` name
is then handled (the proposal is appended), and a name matching no
handled case returns the state unchanged (a shallow copy with all
fields preserved). -/
theorem claim_C5 (ctx : Ctx) (env : Env) (h : Heap) (s : AppState) (ev : Event)
    (hst : ctx.addressesEqual ev.address ctx.stakeTokenAddress = false)
    (hv : ctx.addressesEqual ev.address ctx.vaultAddress = true) :
    (ev.returnValues.token = ctx.requestTokenAddress →
       reducer ctx env h s ev =
         ({ h with fresh := h.fresh + 2 },
          { s with
              ref := h.fresh + 1
              requestToken :=
                some (getRequestTokenSettings ev.returnValues.token env.balances) }))
  ∧ (ev.returnValues.token ≠ ctx.requestTokenAddress → ev.event = "ProposalAdded" →
       (reducer ctx env h s ev).1.propArr s.proposals
         = h.propArr s.proposals ++ [newProposalOf ctx ev]
     ∧ (reducer ctx env h s ev).2.proposals = s.proposals)
  ∧ (ev.returnValues.token ≠ ctx.requestTokenAddress →
     ev.event ∉ ["ProposalAdded", "StakeChanged", "ProposalExecuted",
                  SYNC_STATUS_SYNCING, SYNC_STATUS_SYNCED] →
       reducer ctx env h s ev = ({ h with fresh := h.fresh + 1 }, { s with ref := h.fresh })) := by
  refine ⟨fun htok => reducer_vault_match ctx env h s ev hst hv htok,
          fun htok hA => ?_, fun htok hname => ?_⟩
  · rw [reducer_proposalAdded ctx env h s ev hst (fun hand => htok hand.2) hA]
    exact ⟨setArr_self h.propArr s.proposals _, rfl⟩
  · obtain ⟨hne1, hne2, hne3, hne4, hne5⟩ := event_notin_handled hname
    exact reducer_default ctx env h s ev hst (fun hand => htok hand.2) hne1 hne2 hne3 hne4 hne5

/-- C5 witness: the theorem evaluated on a concrete vault event for the
watched token: only `requestToken` is recomputed. -/
theorem claim_C5_w :
    reducer sampleCtx sampleEnv sampleHeap sampleState vaultEvent
      = ({ sampleHeap with fresh := 4 },
         { sampleState with
             ref := 3
             requestToken := some (getRequestTokenSettings "RT" []) }) := by
  have hmain := claim_C5 sampleCtx sampleEnv sampleHeap sampleState vaultEvent
    (by decide) (by decide)
  exact hmain.1 rfl

/-- C6 counterexample: `parseInt` with no radix argument does NOT parse
every input string in base 10: the id string "0x10" stores 16
(hexadecimal) in the appended proposal, whereas base-10 integer parsing
of "0x10" yields 0 (it stops at the `x`). -/
theorem claim_C6_cex :
    (newProposalOf sampleCtx ⟨"ProposalAdded", { sampleAddRv with id := "0x10" }, 5, "CV"⟩).id
      = some 16
  ∧ parseIntBase10 "0x10" = some 0
  ∧ (newProposalOf sampleCtx ⟨"ProposalAdded", { sampleAddRv with id := "0x10" }, 5, "CV"⟩).id
      ≠ parseIntBase10 "0x10"
  ∧ (reducer sampleCtx sampleEnv sampleHeap sampleState
        ⟨"ProposalAdded", { sampleAddRv with id := "0x10" }, 5, "CV"⟩).1.propArr
        sampleState.proposals
      = [newProposalOf sampleCtx ⟨"ProposalAdded", { sampleAddRv with id := "0x10" }, 5, "CV"⟩] := by
  refine ⟨by decide, by decide, by decide, by decide⟩

/-- C6 (amended): every numeric field the reducer parses (a proposal's
id and amount, and a stake's id, tokensStaked, totalTokensStaked and
conviction) is parsed with JavaScript `parseInt` default-radix
semantics — base 10 except that a `0x`/`0X`-prefixed string parses in
base 16 — and for a non-numeric input string the parse yields NaN
(`none`), which is stored in the state as-is rather than raising an
error or being replaced. -/
theorem claim_C6 (ctx : Ctx) (env : Env) (h : Heap) (s : AppState) (ev : Event)
    (hrs : reachesSwitch ctx ev) :
    (ev.event = "ProposalAdded" →
       (reducer ctx env h s ev).1.propArr s.proposals
         = h.propArr s.proposals ++ [newProposalOf ctx ev]
     ∧ (newProposalOf ctx ev).id = parseIntJs ev.returnValues.id
     ∧ (newProposalOf ctx ev).requestedAmount = parseIntJs ev.returnValues.amount)
  ∧ (ev.event = "StakeChanged" →
       (reducer ctx env h s ev).1.stakeArr s.convictionStakes
         = h.stakeArr s.convictionStakes ++ [newStakeOf ev]
     ∧ (newStakeOf ev).proposal = parseIntJs ev.returnValues.id
     ∧ (newStakeOf ev).tokensStaked = parseIntJs ev.returnValues.tokensStaked
     ∧ (newStakeOf ev).totalTokensStaked = parseIntJs ev.returnValues.totalTokensStaked
     ∧ (newStakeOf ev).conviction = parseIntJs ev.returnValues.conviction)
  ∧ parseIntJs "" = none ∧ parseIntJs "abc" = none ∧ parseIntJs "0x10" = some 16 := by
  have hstf : ctx.addressesEqual ev.address ctx.stakeTokenAddress = false := by
    cases hb : ctx.addressesEqual ev.address ctx.stakeTokenAddress
    · rfl
    · exact absurd hb hrs.1
  refine ⟨fun hA => ?_, fun hS => ?_, by decide, by decide, by decide⟩
  · rw [reducer_proposalAdded ctx env h s ev hstf hrs.2 hA]
    exact ⟨setArr_self h.propArr s.proposals _, rfl, rfl⟩
  · rw [reducer_stakeChanged ctx env h s ev hstf hrs.2 hS]
    exact ⟨setArr_self h.stakeArr s.convictionStakes _, rfl, rfl, rfl, rfl⟩

/-- C6 witness: the amended theorem evaluated on a `ProposalAdded` event
with a non-numeric id: NaN (`none`) is stored as-is in the appended
proposal. -/
theorem claim_C6_w :
    (reducer sampleCtx sampleEnv sampleHeap sampleState
        ⟨"ProposalAdded", { sampleAddRv with id := "zzz" }, 5, "CV"⟩).1.propArr
        sampleState.proposals
      = [newProposalOf sampleCtx ⟨"ProposalAdded", { sampleAddRv with id := "zzz" }, 5, "CV"⟩]
  ∧ (newProposalOf sampleCtx ⟨"ProposalAdded", { sampleAddRv with id := "zzz" }, 5, "CV"⟩).id
      = none := by
  have hmain := claim_C6 sampleCtx sampleEnv sampleHeap sampleState
    ⟨"ProposalAdded", { sampleAddRv with id := "zzz" }, 5, "CV"⟩ (by decide)
  have ha := hmain.1 rfl
  refine ⟨by simpa using ha.1, ?_⟩
  rw [ha.2.1]
  decide

/-- C7: for every operation that fails on every invocation and every
retry budget `maxRetries`, `retryEvery` invokes the operation exactly
`maxRetries + 1` times (one initial attempt plus `maxRetries` retries)
and rejects with the error thrown by the last invocation, never
attempting again; with `maxRetries = 0` the first failure propagates
immediately with no retry. -/
theorem claim_C7 {ε α : Type} (callback : Nat → Except ε α) (err : Nat → ε)
    (initialRetryTimer increaseFactor maxRetries : Nat)
    (hfail : ∀ k, callback k = .error (err k)) :
    retryEvery callback initialRetryTimer increaseFactor maxRetries
      = (.error (err maxRetries), maxRetries + 1) := by
  have main : ∀ (r t k : Nat),
      retryAttempt callback increaseFactor r t k = (.error (err (k + r)), k + r + 1) := by
    intro r
    induction r with
    | zero =>
      intro t k
      simp [retryAttempt, hfail k]
    | succ n ih =>
      intro t k
      simp only [retryAttempt, hfail k]
      rw [ih (t * increaseFactor) (k + 1), show k + 1 + n = k + (n + 1) by omega]
  have h0 := main maxRetries initialRetryTimer 0
  simpa [retryEvery] using h0

/-- C7 witness: an always-failing operation with budget 3 is invoked
exactly 4 times and rejects with the 4th invocation's error; with
budget 0 it is invoked once and the first failure propagates. -/
theorem claim_C7_w :
    retryEvery (fun k => (.error k : Except Nat Nat)) 1000 2 3 = (.error 3, 4)
  ∧ retryEvery (fun k => (.error k : Except Nat Nat)) 1000 2 0 = (.error 0, 1) := by
  constructor
  · exact claim_C7 (fun k => (.error k : Except Nat Nat)) (fun k => k) 1000 2 3 (fun k => rfl)
  · exact claim_C7 (fun k => (.error k : Except Nat Nat)) (fun k => k) 1000 2 0 (fun k => rfl)

/-- C8: for every sequence of events folded through the reducer from
any starting state, the conviction stakes the fold produces are exactly
the input stakes followed by the per-event appended stakes in event
arrival order (append-only, nothing removed); every pre-existing
proposal persists at its position, at most getting its executed flag
set, with the per-event appended proposals following in arrival order
(captured by the pointwise `proposalEvolves` relation); and the lengths
of both arrays are non-decreasing across every prefix of the fold. -/
theorem claim_C8 (ctx : Ctx) (h : Heap) (s : AppState) (pre post : List (Env × Event)) :
    stakesOf (reduceFold ctx h s (pre ++ post)).1 (reduceFold ctx h s (pre ++ post)).2
      = stakesOf h s ++ appendedStakesAll ctx (pre ++ post)
  ∧ List.Forall₂ proposalEvolves (propsOf h s ++ appendedProposalsAll ctx (pre ++ post))
      (propsOf (reduceFold ctx h s (pre ++ post)).1 (reduceFold ctx h s (pre ++ post)).2)
  ∧ (propsOf h s).length
      ≤ (propsOf (reduceFold ctx h s (pre ++ post)).1 (reduceFold ctx h s (pre ++ post)).2).length
  ∧ (stakesOf h s).length
      ≤ (stakesOf (reduceFold ctx h s (pre ++ post)).1 (reduceFold ctx h s (pre ++ post)).2).length
  ∧ (propsOf (reduceFold ctx h s pre).1 (reduceFold ctx h s pre).2).length
      ≤ (propsOf (reduceFold ctx h s (pre ++ post)).1 (reduceFold ctx h s (pre ++ post)).2).length
  ∧ (stakesOf (reduceFold ctx h s pre).1 (reduceFold ctx h s pre).2).length
      ≤ (stakesOf (reduceFold ctx h s (pre ++ post)).1 (reduceFold ctx h s (pre ++ post)).2).length := by
  obtain ⟨hsAll, hpAll⟩ := reduceFold_arrays ctx (pre ++ post) h s
  have happ := reduceFold_append ctx pre post h s
  obtain ⟨hsPost, hpPost⟩ :=
    reduceFold_arrays ctx post (reduceFold ctx h s pre).1 (reduceFold ctx h s pre).2
  have hlenAll := hpAll.length_eq
  rw [List.length_append] at hlenAll
  have hlenPost := hpPost.length_eq
  rw [List.length_append] at hlenPost
  refine ⟨hsAll, hpAll, by omega, ?_, ?_, ?_⟩
  · rw [hsAll, List.length_append]
    omega
  · rw [happ]
    omega
  · rw [happ, hsPost, List.length_append]
    omega

/-- C9: for every cached state (present or absent, whatever `isSyncing`
value it contains) and all resolver results, the state produced by the
initializer has `isSyncing = true`. -/
theorem claim_C9 (decay maxRatioRaw weightRaw : String) (loadedTokenSettings : TokenSettings)
    (balances : List BalanceRecord) (requestTokenAddress : String) (h : Heap)
    (cachedState : Option CachedState) :
    (initState decay maxRatioRaw weightRaw loadedTokenSettings balances
        requestTokenAddress h cachedState).2.isSyncing = true := rfl

/-- C10: `getRequestTokenSettings` is total over the vault-balance
resolver's possible results: for every result list it yields an object
whose `address` property is present and equal to the requested address
(for the empty list, whose first element is undefined, the spread of
`undefined` contributes nothing and the result is `{address}` with no
balance fields); since an object literal is always truthy, the trailing
`|| {}` fallback never fires; consequently `requestToken` is present
(not undefined) after initialization and after a vault-event
reduction. -/
theorem claim_C10 :
    (∀ (address : String) (balances : List BalanceRecord),
       (getRequestTokenSettings address balances).address = some address)
  ∧ (∀ address : String,
       getRequestTokenSettings address [] = { balanceFields := [], address := some address })
  ∧ (∀ a fallback : RequestTokenSettings, jsOrObj a fallback = a)
  ∧ (∀ (decay maxRatioRaw weightRaw : String) (ts : TokenSettings)
       (balances : List BalanceRecord) (rta : String) (h : Heap) (c : Option CachedState),
       (initState decay maxRatioRaw weightRaw ts balances rta h c).2.requestToken
         = some (getRequestTokenSettings rta balances))
  ∧ (∀ (ctx : Ctx) (env : Env) (h : Heap) (s : AppState) (ev : Event),
       ctx.addressesEqual ev.address ctx.stakeTokenAddress = false →
       ctx.addressesEqual ev.address ctx.vaultAddress = true →
       ev.returnValues.token = ctx.requestTokenAddress →
       (reducer ctx env h s ev).2.requestToken
         = some (getRequestTokenSettings ev.returnValues.token env.balances)) := by
  refine ⟨fun address balances => rfl, fun address => rfl, fun a fallback => rfl,
          fun decay maxRatioRaw weightRaw ts balances rta h c => rfl,
          fun ctx env h s ev hst hv htok => ?_⟩
  rw [reducer_vault_match ctx env h s ev hst hv htok]

/-- C10 witness: evaluated at the empty resolver result and a concrete
vault event. -/
theorem claim_C10_w :
    (getRequestTokenSettings "RT" []).address = some "RT"
  ∧ getRequestTokenSettings "RT" [] = { balanceFields := [], address := some "RT" }
  ∧ (reducer sampleCtx sampleEnv sampleHeap sampleState vaultEvent).2.requestToken
      = some (getRequestTokenSettings "RT" []) := by
  have hmain := claim_C10
  refine ⟨hmain.1 "RT" [], hmain.2.1 "RT", ?_⟩
  exact hmain.2.2.2.2 sampleCtx sampleEnv sampleHeap sampleState vaultEvent
    (by decide) (by decide) rfl
